import Mathlib

/-!
Verification of the typed JSON-RPC client layer of this repository
(`src/client/__init__.py`).

The development shallowly embeds:

* a JSON value type `Json` together with models of Python's `json.dumps`
  (default options: `ensure_ascii=True`, separators `", "` / `": "`) and of
  strict-mode `json.loads`;
* the HTTP transport `HttpClient` (`__init__`, `__repr__`, `call`) over an
  abstract network `Net`;
* the typed client methods cited by the claims (`ChainHead`,
  `ChainGetTipSetByHeight`, `ChainSetHead`, `Shutdown`, `WalletSetDefault`,
  `WalletBalance`) over the abstract `Transport` capability.

Model boundaries, stated once here: JSON numbers are modelled as arbitrary
precision integers (no fractional or exponent forms); Lean characters are
Unicode scalar values, so strings with lone surrogates (which CPython's
decoder would accept) are outside the model; `Json.obj` carries the ordered
member list of the object text, with `getField` giving the last-occurrence
lookup that results from building a Python `dict`.
-/

/-- A JSON value as produced by Python's `json.loads`: `null`, booleans,
(integer) numbers, strings, arrays, and objects. -/
inductive Json where
  | null
  | bool (b : Bool)
  | num (n : Int)
  | str (s : String)
  | arr (elems : List Json)
  | obj (fields : List (String × Json))

/-- The four whitespace characters of the JSON grammar, as accepted by
Python's `json` module. -/
def isWs (c : Char) : Bool :=
  c == ' ' || c == '\t' || c == '\n' || c == '\r'

/-- Lowercase hexadecimal digit for `d < 16`, as Python writes `\uXXXX`
escapes. -/
def hexDigitCh (d : Nat) : Char :=
  if d < 10 then Char.ofNat (48 + d) else Char.ofNat (87 + d)

/-- Four-digit lowercase hexadecimal rendering of `n < 0x10000`. -/
def toHex4 (n : Nat) : List Char :=
  [hexDigitCh (n / 4096 % 16), hexDigitCh (n / 256 % 16),
   hexDigitCh (n / 16 % 16), hexDigitCh (n % 16)]

/-- How Python's `json.dumps` (default `ensure_ascii=True`) renders one
character inside a string literal: `"` and `\` and the five named control
characters get two-character escapes, printable ASCII is emitted literally,
and everything else becomes `\uXXXX`, using a surrogate pair above
`U+FFFF`. -/
def escChar (c : Char) : List Char :=
  if c == '"' then ['\\', '"']
  else if c == '\\' then ['\\', '\\']
  else if c == '\x08' then ['\\', 'b']
  else if c == '\x0c' then ['\\', 'f']
  else if c == '\n' then ['\\', 'n']
  else if c == '\r' then ['\\', 'r']
  else if c == '\t' then ['\\', 't']
  else if 0x20 ≤ c.toNat && c.toNat ≤ 0x7e then [c]
  else if c.toNat < 0x10000 then '\\' :: 'u' :: toHex4 c.toNat
  else
    '\\' :: 'u' :: (toHex4 (0xd800 + (c.toNat - 0x10000) / 0x400) ++
      '\\' :: 'u' :: toHex4 (0xdc00 + (c.toNat - 0x10000) % 0x400))

/-- The characters of the JSON string literal for `s`, quotes included. -/
def encStr (s : String) : List Char :=
  '"' :: (s.data.map escChar).flatten ++ ['"']

/-- Decimal digits of a natural number; fuel-driven so that it is structural
recursion and reduces inside the kernel. -/
def natDigitsAux : Nat → Nat → List Char
  | 0, _ => []
  | f + 1, n =>
    if n < 10 then [Char.ofNat (48 + n)]
    else natDigitsAux f (n / 10) ++ [Char.ofNat (48 + n % 10)]

/-- Decimal rendering of a natural number. -/
def natDigits (n : Nat) : List Char := natDigitsAux (n + 1) n

/-- Rendering of an integer as Python's `json.dumps` writes `int` values:
optional minus sign followed by decimal digits without leading zeros. -/
def encInt (n : Int) : List Char :=
  if n < 0 then '-' :: natDigits n.natAbs else natDigits n.toNat

mutual

/-- Characters of Python `json.dumps` output (default separators `", "` and
`": "`) for a JSON value. -/
def encVal : Json → List Char
  | .null => 'n' :: 'u' :: 'l' :: 'l' :: []
  | .bool true => 't' :: 'r' :: 'u' :: 'e' :: []
  | .bool false => 'f' :: 'a' :: 'l' :: 's' :: 'e' :: []
  | .num n => encInt n
  | .str s => encStr s
  | .arr es => '[' :: encArrBody es
  | .obj fs => '\x7b' :: encObjBody fs

/-- What follows the opening `[` of an array. -/
def encArrBody : List Json → List Char
  | [] => [']']
  | e :: es => encVal e ++ encArrTail es

/-- The `", "`-separated later elements of an array, and the closing `]`. -/
def encArrTail : List Json → List Char
  | [] => [']']
  | e :: es => ',' :: ' ' :: (encVal e ++ encArrTail es)

/-- What follows the opening brace of an object. -/
def encObjBody : List (String × Json) → List Char
  | [] => ['\x7d']
  | (k, v) :: fs => encStr k ++ ':' :: ' ' :: (encVal v ++ encObjTail fs)

/-- The `", "`-separated later members of an object, and the closing brace. -/
def encObjTail : List (String × Json) → List Char
  | [] => ['\x7d']
  | (k, v) :: fs =>
    ',' :: ' ' :: (encStr k ++ ':' :: ' ' :: (encVal v ++ encObjTail fs))

end

/-- Model of Python `json.dumps` with its default options. -/
def Json.dumps (j : Json) : String := String.mk (encVal j)

/-- Drop leading JSON whitespace. -/
def skipWs (cs : List Char) : List Char := cs.dropWhile isWs

/-- Value of one hexadecimal digit, either case, as accepted inside
`\uXXXX`. -/
def hexVal (c : Char) : Option Nat :=
  if '0' ≤ c ∧ c ≤ '9' then some (c.toNat - 48)
  else if 'a' ≤ c ∧ c ≤ 'f' then some (c.toNat - 87)
  else if 'A' ≤ c ∧ c ≤ 'F' then some (c.toNat - 55)
  else none

/-- Parse four hexadecimal digits. -/
def parseHex4 : List Char → Option (Nat × List Char)
  | a :: b :: c :: d :: rest =>
    match hexVal a, hexVal b, hexVal c, hexVal d with
    | some x, some y, some z, some w => some (4096 * x + 256 * y + 16 * z + w, rest)
    | _, _, _, _ => none
  | _ => none

/-- Parse the body of one backslash escape (the backslash itself already
consumed), including `\uXXXX` with surrogate-pair combination, exactly as
CPython's strict JSON decoder does — except that lone surrogates, which are
not Lean characters, are rejected. -/
def parseEsc (cs : List Char) : Option (Char × List Char) :=
  match cs with
  | [] => none
  | e :: rest =>
    if e == '"' then some ('"', rest)
    else if e == '\\' then some ('\\', rest)
    else if e == '/' then some ('/', rest)
    else if e == 'b' then some ('\x08', rest)
    else if e == 'f' then some ('\x0c', rest)
    else if e == 'n' then some ('\n', rest)
    else if e == 'r' then some ('\r', rest)
    else if e == 't' then some ('\t', rest)
    else if e == 'u' then
      match parseHex4 rest with
      | none => none
      | some (n, rest1) =>
        if 0xd800 ≤ n ∧ n ≤ 0xdbff then
          match rest1 with
          | a :: b :: rest2 =>
            if a == '\\' && b == 'u' then
              match parseHex4 rest2 with
              | some (m, rest3) =>
                if 0xdc00 ≤ m ∧ m ≤ 0xdfff then
                  some (Char.ofNat (0x10000 + (n - 0xd800) * 0x400 + (m - 0xdc00)), rest3)
                else none
              | none => none
            else none
          | _ => none
        else if 0xdc00 ≤ n ∧ n ≤ 0xdfff then none
        else some (Char.ofNat n, rest1)
    else none

/-- Parse the characters of a string literal up to and including the closing
quote (the opening quote already consumed). Fuel-driven; one unit of fuel per
produced character. -/
def parseStrBody : Nat → List Char → Option (List Char × List Char)
  | 0, _ => none
  | f + 1, cs =>
    match cs with
    | [] => none
    | c :: rest =>
      if c == '"' then some ([], rest)
      else if c == '\\' then
        match parseEsc rest with
        | some (e, rest1) =>
          match parseStrBody f rest1 with
          | some (s, rest2) => some (e :: s, rest2)
          | none => none
        | none => none
      else if c.toNat < 0x20 then none
      else
        match parseStrBody f rest with
        | some (s, rest2) => some (c :: s, rest2)
        | none => none

/-- Numeric value of a list of decimal digit characters. -/
def digitsVal (ds : List Char) : Nat :=
  ds.foldl (fun a c => 10 * a + (c.toNat - 48)) 0

/-- Decimal digit test (the regex class `[0-9]` of Python's scanner). -/
def isDigitCh (c : Char) : Bool :=
  48 ≤ c.toNat && c.toNat ≤ 57

/-- Parse an unsigned integer numeral with the JSON grammar
(`0 | [1-9][0-9]*`): a leading `0` is a complete numeral on its own, exactly
as in Python's scanner. -/
def parseNat : List Char → Option (Nat × List Char)
  | [] => none
  | c :: rest =>
    if c == '0' then some (0, rest)
    else if isDigitCh c then
      some (digitsVal ((c :: rest).takeWhile isDigitCh),
            (c :: rest).dropWhile isDigitCh)
    else none

/-- Parse an integer numeral with optional minus sign. Fractional and
exponent forms are outside this model. -/
def parseNum (cs : List Char) : Option (Json × List Char) :=
  match cs with
  | [] => none
  | c :: rest =>
    if c == '-' then
      match parseNat rest with
      | some (n, rest1) => some (.num (-(n : Int)), rest1)
      | none => none
    else
      match parseNat (c :: rest) with
      | some (n, rest1) => some (.num (n : Int), rest1)
      | none => none

/-- Match an expected run of literal characters. -/
def expectChars : List Char → List Char → Option (List Char)
  | [], cs => some cs
  | p :: ps, c :: cs => if c == p then expectChars ps cs else none
  | _ :: _, [] => none

mutual

/-- Fuel-driven recursive-descent parser for one JSON value, following
CPython's strict `json.loads` grammar (restricted to integer numerals).
Leading whitespace must already be consumed. -/
def parseVal : Nat → List Char → Option (Json × List Char)
  | 0, _ => none
  | f + 1, cs =>
    match cs with
    | [] => none
    | c :: rest =>
      if c == 'n' then
        match expectChars ('u' :: 'l' :: 'l' :: []) rest with
        | some rest1 => some (.null, rest1)
        | none => none
      else if c == 't' then
        match expectChars ('r' :: 'u' :: 'e' :: []) rest with
        | some rest1 => some (.bool true, rest1)
        | none => none
      else if c == 'f' then
        match expectChars ('a' :: 'l' :: 's' :: 'e' :: []) rest with
        | some rest1 => some (.bool false, rest1)
        | none => none
      else if c == '"' then
        match parseStrBody rest.length rest with
        | some (s, rest1) => some (.str (String.mk s), rest1)
        | none => none
      else if c == '[' then parseArrBody f (skipWs rest)
      else if c == '\x7b' then parseObjBody f (skipWs rest)
      else parseNum (c :: rest)

/-- After `[` (and whitespace): the empty array or its elements. -/
def parseArrBody : Nat → List Char → Option (Json × List Char)
  | 0, _ => none
  | f + 1, cs =>
    match cs with
    | [] => none
    | c :: rest =>
      if c == ']' then some (.arr [], rest)
      else
        match parseVal f (c :: rest) with
        | some (v, rest1) =>
          match parseArrRest f (skipWs rest1) with
          | some (vs, rest2) => some (.arr (v :: vs), rest2)
          | none => none
        | none => none

/-- After one array element (and whitespace): the closing `]` or a comma and
further elements. -/
def parseArrRest : Nat → List Char → Option (List Json × List Char)
  | 0, _ => none
  | f + 1, cs =>
    match cs with
    | [] => none
    | c :: rest =>
      if c == ']' then some ([], rest)
      else if c == ',' then
        match parseVal f (skipWs rest) with
        | some (v, rest1) =>
          match parseArrRest f (skipWs rest1) with
          | some (vs, rest2) => some (v :: vs, rest2)
          | none => none
        | none => none
      else none

/-- After the opening brace (and whitespace): the empty object or its
members. -/
def parseObjBody : Nat → List Char → Option (Json × List Char)
  | 0, _ => none
  | f + 1, cs =>
    match cs with
    | [] => none
    | c :: rest =>
      if c == '\x7d' then some (.obj [], rest)
      else if c == '"' then
        match parseMember f rest with
        | some (k, v, rest1) =>
          match parseObjRest f (skipWs rest1) with
          | some (fs, rest2) => some (.obj ((k, v) :: fs), rest2)
          | none => none
        | none => none
      else none

/-- One `"key": value` member, entered just after the key's opening quote. -/
def parseMember : Nat → List Char → Option (String × Json × List Char)
  | 0, _ => none
  | f + 1, cs =>
    match parseStrBody cs.length cs with
    | some (k, rest1) =>
      match skipWs rest1 with
      | [] => none
      | c :: rest2 =>
        if c == ':' then
          match parseVal f (skipWs rest2) with
          | some (v, rest3) => some (String.mk k, v, rest3)
          | none => none
        else none
    | none => none

/-- After one object member (and whitespace): the closing brace or a comma
and further members. -/
def parseObjRest : Nat → List Char → Option (List (String × Json) × List Char)
  | 0, _ => none
  | f + 1, cs =>
    match cs with
    | [] => none
    | c :: rest =>
      if c == '\x7d' then some ([], rest)
      else if c == ',' then
        match skipWs rest with
        | [] => none
        | q :: rest1 =>
          if q == '"' then
            match parseMember f rest1 with
            | some (k, v, rest2) =>
              match parseObjRest f (skipWs rest2) with
              | some (fs, rest3) => some ((k, v) :: fs, rest3)
              | none => none
            | none => none
          else none
      else none

end

/-- Model of Python's strict-mode `json.loads`: leading and trailing
whitespace allowed, the whole input must be consumed. -/
def Json.loads (s : String) : Option Json :=
  match parseVal ((skipWs s.data).length + 1) (skipWs s.data) with
  | some (j, rest) => if (skipWs rest).isEmpty then some j else none
  | none => none

/-- Lookup among the members of a decoded object with Python `dict`
semantics: when the object text had duplicate keys, `json.loads` keeps the
last value, so the lookup returns the last binding of the key. -/
def getField (fields : List (String × Json)) (k : String) : Option Json :=
  fields.foldl (fun acc kv => if kv.1 == k then some kv.2 else acc) none

/-- The failure modes of `HttpClient.call` and of the typed client methods,
one constructor per distinct Python exception site. -/
inductive CallError where
  | paramDecode                -- json.loads raised on a serialized parameter
  | connectionFailed           -- requests.post raised; no HTTP exchange happened
  | httpError (status : Nat)   -- Response.raise_for_status raised HTTPError
  | bodyDecode                 -- Response.json() raised: body is not valid JSON
  | assertionFailed            -- assert isinstance(json_resp, dict) failed
  | rpcError (payload : Json)  -- raise RuntimeError(json_resp)
  | resultDecode               -- json.loads raised on the transport's result
  | validationError            -- pydantic model_validate_json rejected the result

/-- One HTTP response: numeric status code and raw body text. -/
structure HttpResponse where
  status : Nat
  body : String

/-- The network as seen by the single `requests.post` call: url, JSON request
body and optional authorization value in; an HTTP response out, with `none`
standing for a connection failure (a raised `requests` exception). -/
def Net := String → Json → Option String → Option HttpResponse

/-- `HttpClient.__init__`: a configured endpoint and an optional token. -/
structure HttpClient where
  url : String
  token : Option String

/-- `HttpClient.__repr__`. -/
def HttpClient.repr (c : HttpClient) : String :=
  if c.token.isSome then "HttpClient(url=" ++ c.url ++ ", token=...)"
  else "HttpClient(url=" ++ c.url ++ ")"

/-- The `auth` argument `HttpClient.call` passes to `requests.post`:
`f"Bearer {self.token}"` when a token is configured, `None` otherwise. -/
def HttpClient.authValue (c : HttpClient) : Option String :=
  c.token.map (fun t => "Bearer " ++ t)

/-- The outbound JSON-RPC 2.0 envelope `HttpClient.call` builds: each
serialized parameter is re-parsed with `json.loads` (a failure there raises
before any request is sent, modelled as `none`). -/
def HttpClient.requestBody (methodName : String) (params : List String) :
    Option Json :=
  (params.mapM Json.loads).map fun vs =>
    Json.obj [("jsonrpc", .str "2.0"), ("id", .null),
              ("method", .str methodName), ("params", .arr vs)]

/-- Model of `requests.Response.raise_for_status`: it raises `HTTPError`
exactly for client-error (4xx) and server-error (5xx) status codes. -/
def raiseForStatus (status : Nat) : Prop := 400 ≤ status ∧ status < 600

instance (status : Nat) : Decidable (raiseForStatus status) :=
  inferInstanceAs (Decidable (_ ∧ _))

/-- What `HttpClient.call` does with the HTTP response:
`raise_for_status()`, `Response.json()`, `assert isinstance(json_resp, dict)`,
the absent-or-null `result` check, and re-serialization of `result`. -/
def handleResponse (resp : HttpResponse) : Except CallError String :=
  if raiseForStatus resp.status then .error (.httpError resp.status)
  else
    match Json.loads resp.body with
    | none => .error .bodyDecode
    | some (Json.obj fields) =>
      match getField fields "result" with
      | none => .error (.rpcError (Json.obj fields))
      | some Json.null => .error (.rpcError (Json.obj fields))
      | some r => .ok (Json.dumps r)
    | some _ => .error .assertionFailed

/-- One network exchange followed by the response handling above. -/
def postAndHandle (net : Net) (url : String) (req : Json)
    (auth : Option String) : Except CallError String :=
  match net url req auth with
  | none => .error .connectionFailed
  | some resp => handleResponse resp

/-- Model of `HttpClient.call`. -/
def HttpClient.call (c : HttpClient) (net : Net) (methodName : String)
    (params : List String) : Except CallError String :=
  match HttpClient.requestBody methodName params with
  | none => .error .paramDecode
  | some req => postAndHandle net c.url req c.authValue

/-- The abstract `Client.call` capability (the spec's Transport): a method
name and ordered serialized parameters in, a serialized result out. -/
def Transport := String → List String → Except CallError String

/-- Modelled from the spec: the pydantic models of the `.definitions` module
are not in `src/`; per the spec's Wire Codec, a typed value has a stable
canonical JSON form and `model_dump_json(by_alias=True)` serializes exactly
that form. The tipset-key type `ForestFilecoinLotusJsonCidCidLotusJsonGeneric64`
is modelled as an opaque typed value carrying its canonical JSON form. -/
structure ForestFilecoinLotusJsonCidCidLotusJsonGeneric64 where
  json : Json

/-- Modelled from the spec: `model_dump_json(by_alias=True)` on the
tipset-key value. -/
def ForestFilecoinLotusJsonCidCidLotusJsonGeneric64.model_dump_json
    (v : ForestFilecoinLotusJsonCidCidLotusJsonGeneric64) : String :=
  Json.dumps v.json

/-- Modelled from the spec: the pydantic root model called `String` in the
missing `.definitions` module; its canonical JSON form is a plain JSON
string (the spec's example sends address `"f01234"` as a JSON scalar). -/
structure StringLotusJson where
  val : String

/-- Modelled from the spec: `model_dump_json(by_alias=True)` on the `String`
model. -/
def StringLotusJson.model_dump_json (v : StringLotusJson) : String :=
  Json.dumps (Json.str v.val)

/-- Modelled from the spec: shape validation of a decoded JSON value for the
`String` model; accepts exactly JSON strings. -/
def StringLotusJson.validate : Json → Option StringLotusJson
  | Json.str v => some ⟨v⟩
  | _ => none

/-- Modelled from the spec: pydantic `model_validate_json` = parse the text,
then validate the shape. -/
def StringLotusJson.model_validate_json (s : String) : Option StringLotusJson :=
  (Json.loads s).bind StringLotusJson.validate

/-- Modelled from the spec: `TipsetLotusJson` from the missing `.definitions`
module. The spec exhibits its canonical shape as an object with the tipset's
`Cids` and its `Height` (example result `{"Cids":[...], "Height":1000, ...}`
decodes "into a typed tipset value exposing height 1000"), and requires
encode∘decode to round-trip on the canonical shape. -/
structure TipsetLotusJson where
  cids : List Json
  height : Int

/-- Modelled from the spec: the canonical JSON form of a tipset value. -/
def TipsetLotusJson.toJson (t : TipsetLotusJson) : Json :=
  Json.obj [("Cids", Json.arr t.cids), ("Height", Json.num t.height)]

/-- Modelled from the spec: shape validation of a decoded JSON value for
`TipsetLotusJson`; accepts exactly the canonical shape. -/
def TipsetLotusJson.validate : Json → Option TipsetLotusJson
  | Json.obj [("Cids", Json.arr cs), ("Height", Json.num h)] => some ⟨cs, h⟩
  | _ => none

/-- Modelled from the spec: pydantic `model_validate_json` = parse the text,
then validate the shape. -/
def TipsetLotusJson.model_validate_json (s : String) : Option TipsetLotusJson :=
  (Json.loads s).bind TipsetLotusJson.validate

/-- `Client.ChainHead`. -/
def Client.ChainHead (call : Transport) : Except CallError TipsetLotusJson :=
  (call "Filecoin.ChainHead" []).bind fun s =>
    match TipsetLotusJson.model_validate_json s with
    | some t => .ok t
    | none => .error .validationError

/-- `Client.ChainGetTipSetByHeight`. -/
def Client.ChainGetTipSetByHeight (call : Transport) (height : Int)
    (tsk : ForestFilecoinLotusJsonCidCidLotusJsonGeneric64) :
    Except CallError TipsetLotusJson :=
  (call "Filecoin.ChainGetTipSetByHeight"
      [Json.dumps (Json.num height), tsk.model_dump_json]).bind fun s =>
    match TipsetLotusJson.model_validate_json s with
    | some t => .ok t
    | none => .error .validationError

/-- `Client.WalletBalance`. -/
def Client.WalletBalance (call : Transport) (address : StringLotusJson) :
    Except CallError StringLotusJson :=
  (call "Filecoin.WalletBalance" [address.model_dump_json]).bind fun s =>
    match StringLotusJson.model_validate_json s with
    | some v => .ok v
    | none => .error .validationError

/-- `Client.ChainSetHead`: annotated `-> None` in the source, but its body is
`return json.loads(self.call(...))`, so the caller receives whatever JSON
value the transport's result text decodes to. -/
def Client.ChainSetHead (call : Transport)
    (tsk : ForestFilecoinLotusJsonCidCidLotusJsonGeneric64) :
    Except CallError Json :=
  (call "Filecoin.ChainSetHead" [tsk.model_dump_json]).bind fun s =>
    match Json.loads s with
    | some j => .ok j
    | none => .error .resultDecode

/-- `Client.WalletSetDefault`: annotated `-> None`, body
`return json.loads(self.call(...))`. -/
def Client.WalletSetDefault (call : Transport) (address : StringLotusJson) :
    Except CallError Json :=
  (call "Filecoin.WalletSetDefault" [address.model_dump_json]).bind fun s =>
    match Json.loads s with
    | some j => .ok j
    | none => .error .resultDecode

/-- `Client.Shutdown`: annotated `-> None`, body
`return json.loads(self.call(...))`. -/
def Client.Shutdown (call : Transport) : Except CallError Json :=
  (call "Filecoin.Shutdown" []).bind fun s =>
    match Json.loads s with
    | some j => .ok j
    | none => .error .resultDecode

/-- The continuation after an encoded numeral never starts with a digit, so
the numeral's extent is unambiguous. -/
def noDigitHead (cs : List Char) : Prop :=
  ∀ d ds, cs = d :: ds → isDigitCh d = false

mutual

/-- Fuel sufficient for `parseVal` on the encoding of a value. -/
def sizeVal : Json → Nat
  | .null => 1
  | .bool _ => 1
  | .num _ => 1
  | .str _ => 1
  | .arr es => 1 + sizeArr es
  | .obj fs => 1 + sizeObj fs

/-- Fuel sufficient for `parseArrBody` and `parseArrRest` on an element
list. -/
def sizeArr : List Json → Nat
  | [] => 1
  | e :: es => max (1 + sizeVal e) (1 + sizeArr es)

/-- Fuel sufficient for `parseObjBody` and `parseObjRest` on a member
list. -/
def sizeObj : List (String × Json) → Nat
  | [] => 1
  | (_, v) :: fs => max (2 + sizeVal v) (1 + sizeObj fs)

end

/-- A network that always answers 200 with body `{"result": 3}`. -/
def netC1 : Net := fun _ _ _ => some ⟨200, Json.dumps (Json.obj [("result", Json.num 3)])⟩

/-- A network that refuses every connection. -/
def netC7 : Net := fun _ _ _ => none

/-- A network that always answers 200 with the non-object body `7`. -/
def netC9 : Net := fun _ _ _ => some ⟨200, Json.dumps (Json.num 7)⟩

/-- A network that always answers status 304 (not 2xx, not an HTTP error)
with body `{"result": 5}`. -/
def netC4 : Net := fun _ _ _ => some ⟨304, Json.dumps (Json.obj [("result", Json.num 5)])⟩

/-- A network that always answers HTTP 500. -/
def netC4err : Net := fun _ _ _ => some ⟨500, "internal error"⟩

/-- The error payload of the spec's example scenario:
`{"code": -32601, "message": "method not found"}`. -/
def errC6 : Json :=
  Json.obj [("code", Json.num (-32601)), ("message", Json.str "method not found")]

/-- A network that always answers 200 with body `{"error": errC6}`. -/
def netC6 : Net := fun _ _ _ => some ⟨200, Json.dumps (Json.obj [("error", errC6)])⟩

/-- A concrete tipset key argument (the empty CID array). -/
def tskC8 : ForestFilecoinLotusJsonCidCidLotusJsonGeneric64 := ⟨Json.arr []⟩

/-- A network answering 200 with body `{"result": true}`. -/
def netC8true : Net :=
  fun _ _ _ => some ⟨200, Json.dumps (Json.obj [("result", Json.bool true)])⟩

/-- A network answering 200 with body `{"result": null}` — the conforming
JSON-RPC response of a method that returns nothing. -/
def netC8null : Net :=
  fun _ _ _ => some ⟨200, Json.dumps (Json.obj [("result", Json.null)])⟩

/-- The spec's example tipset result value. -/
def tipsetC5 : Json := Json.obj [("Cids", Json.arr []), ("Height", Json.num 1000)]

/-- A network answering 200 with body `{"result": tipsetC5}`. -/
def netC5 : Net := fun _ _ _ => some ⟨200, Json.dumps (Json.obj [("result", tipsetC5)])⟩

/-! ### Concrete evaluations of the wire codec -/

example : Json.dumps (.obj [("result", .num 3)]) = "\x7b\"result\": 3\x7d" := rfl

example : Json.loads "\x7b\"result\": 3\x7d" = some (.obj [("result", .num 3)]) := rfl

example : Json.loads " [1, -25, \"a b\", null, true, \x7b\x7d] " =
    some (.arr [.num 1, .num (-25), .str "a b", .null, .bool true, .obj []]) := rfl

example : Json.loads (Json.dumps (.obj [("a", .arr [.num 1000, .str "école"]), ("b", .null)])) =
    some (.obj [("a", .arr [.num 1000, .str "école"]), ("b", .null)]) := rfl

example : Json.dumps (.str "école") = "\"\\u00e9cole\"" := rfl

example : Json.loads "\x7b\"a\":1,\"a\":2\x7d" = some (.obj [("a", .num 1), ("a", .num 2)]) := rfl

example : getField [("a", .num 1), ("a", .num 2)] "a" = some (.num 2) := rfl

example : Json.loads "01" = none := rfl

example : Json.loads "nul" = none := rfl

/-! ### Characters, hexadecimal digits, numerals -/

theorem char_valid_facts (c : Char) :
    c.toNat < 0x110000 ∧ ¬(0xd800 ≤ c.toNat ∧ c.toNat ≤ 0xdfff) := by
  have h : c.val.toNat < 0xd800 ∨ (0xdfff < c.val.toNat ∧ c.val.toNat < 0x110000) :=
    c.valid
  simp only [Char.toNat]
  omega

theorem chr_toNat (c : Char) : Char.ofNat c.toNat = c := by
  have hv : c.toNat.isValidChar := c.valid
  unfold Char.ofNat
  rw [dif_pos hv]
  unfold Char.ofNatAux
  cases c with
  | mk val valid =>
    apply Char.ext
    rcases val with ⟨⟨n, hn⟩⟩
    rfl

theorem hexVal_hexDigitCh : ∀ d < 16, hexVal (hexDigitCh d) = some d := by decide

theorem parseHex4_toHex4 (n : Nat) (h : n < 65536) (rest : List Char) :
    parseHex4 (toHex4 n ++ rest) = some (n, rest) := by
  have h1 : n / 4096 % 16 < 16 := Nat.mod_lt _ (by norm_num)
  have h2 : n / 256 % 16 < 16 := Nat.mod_lt _ (by norm_num)
  have h3 : n / 16 % 16 < 16 := Nat.mod_lt _ (by norm_num)
  have h4 : n % 16 < 16 := Nat.mod_lt _ (by norm_num)
  simp only [toHex4, List.cons_append, List.nil_append, parseHex4,
    hexVal_hexDigitCh _ h1, hexVal_hexDigitCh _ h2, hexVal_hexDigitCh _ h3,
    hexVal_hexDigitCh _ h4]
  have : 4096 * (n / 4096 % 16) + 256 * (n / 256 % 16) + 16 * (n / 16 % 16) + n % 16 = n := by
    omega
  rw [this]

theorem natDigitsAux_congr : ∀ f g n, n < f → n < g → natDigitsAux f n = natDigitsAux g n := by
  intro f
  induction f with
  | zero => omega
  | succ f ih =>
    intro g n hf hg
    cases g with
    | zero => omega
    | succ g =>
      simp only [natDigitsAux]
      by_cases h10 : n < 10
      · simp [h10]
      · simp only [if_neg h10]
        rw [ih g (n / 10) (by omega) (by omega)]

theorem natDigits_eq (n : Nat) :
    natDigits n =
      if n < 10 then [Char.ofNat (48 + n)]
      else natDigits (n / 10) ++ [Char.ofNat (48 + n % 10)] := by
  show natDigitsAux (n + 1) n = _
  rw [natDigitsAux]
  by_cases h : n < 10
  · simp [h]
  · simp only [if_neg h]
    unfold natDigits
    rw [natDigitsAux_congr n (n / 10 + 1) (n / 10) (by omega) (by omega)]

theorem isDigitCh_ofNat_small : ∀ d < 10, isDigitCh (Char.ofNat (48 + d)) = true := by decide

theorem toNat_ofNat_small : ∀ d < 10, (Char.ofNat (48 + d)).toNat = 48 + d := by decide

theorem natDigits_all_digit (n : Nat) : ∀ c ∈ natDigits n, isDigitCh c = true := by
  induction n using Nat.strong_induction_on with
  | _ n ih =>
    intro c hc
    rw [natDigits_eq] at hc
    by_cases h : n < 10
    · rw [if_pos h] at hc
      simp only [List.mem_singleton] at hc
      subst hc
      exact isDigitCh_ofNat_small n h
    · rw [if_neg h] at hc
      rcases List.mem_append.mp hc with hc | hc
      · exact ih (n / 10) (by omega) c hc
      · simp only [List.mem_singleton] at hc
        subst hc
        exact isDigitCh_ofNat_small (n % 10) (by omega)

theorem natDigits_head (n : Nat) :
    ∃ d ds, natDigits n = d :: ds ∧ isDigitCh d = true ∧ (1 ≤ n → d ≠ '0') := by
  induction n using Nat.strong_induction_on with
  | _ n ih =>
    rw [natDigits_eq]
    by_cases h : n < 10
    · refine ⟨Char.ofNat (48 + n), [], by simp [h], isDigitCh_ofNat_small n h, ?_⟩
      intro h1 he
      have h2 : (Char.ofNat (48 + n)).toNat = ('0' : Char).toNat := congrArg Char.toNat he
      have h3 : ('0' : Char).toNat = 48 := rfl
      rw [toNat_ofNat_small n h, h3] at h2
      omega
    · rcases ih (n / 10) (by omega) with ⟨d, ds, hnd, hdig, hzero⟩
      refine ⟨d, ds ++ [Char.ofNat (48 + n % 10)], ?_, hdig, fun _ => hzero (by omega)⟩
      rw [if_neg h, hnd]
      simp

theorem digitsVal_append_digit (xs : List Char) (c : Char) :
    digitsVal (xs ++ [c]) = 10 * digitsVal xs + (c.toNat - 48) := by
  simp [digitsVal, List.foldl_append]

theorem digitsVal_natDigits : ∀ n, digitsVal (natDigits n) = n := by
  intro n
  induction n using Nat.strong_induction_on with
  | _ n ih =>
    rw [natDigits_eq]
    by_cases h : n < 10
    · rw [if_pos h]
      show digitsVal ([] ++ [Char.ofNat (48 + n)]) = n
      rw [digitsVal_append_digit, toNat_ofNat_small n h]
      simp [digitsVal]
    · rw [if_neg h, digitsVal_append_digit, ih (n / 10) (by omega),
        toNat_ofNat_small (n % 10) (by omega)]
      omega

theorem noDigitHead_nil : noDigitHead [] := by
  intro d ds h
  cases h

theorem noDigitHead_cons {c : Char} (h : isDigitCh c = false) (cs : List Char) :
    noDigitHead (c :: cs) := by
  intro d ds he
  cases he
  exact h

theorem takeWhile_append_all (p : Char → Bool) :
    ∀ xs ys, (∀ c ∈ xs, p c = true) → (∀ d ds, ys = d :: ds → p d = false) →
      (xs ++ ys).takeWhile p = xs := by
  intro xs
  induction xs with
  | nil =>
    intro ys _ hy
    cases ys with
    | nil => rfl
    | cons d ds => simp [List.takeWhile_cons, hy d ds rfl]
  | cons x xs ih =>
    intro ys hall hy
    have hx : p x = true := hall x (by simp)
    simp [List.takeWhile_cons, hx, ih ys (fun c hc => hall c (by simp [hc])) hy]

theorem dropWhile_append_all (p : Char → Bool) :
    ∀ xs ys, (∀ c ∈ xs, p c = true) → (∀ d ds, ys = d :: ds → p d = false) →
      (xs ++ ys).dropWhile p = ys := by
  intro xs
  induction xs with
  | nil =>
    intro ys _ hy
    cases ys with
    | nil => rfl
    | cons d ds => simp [List.dropWhile_cons, hy d ds rfl]
  | cons x xs ih =>
    intro ys hall hy
    have hx : p x = true := hall x (by simp)
    simp [List.dropWhile_cons, hx, ih ys (fun c hc => hall c (by simp [hc])) hy]

theorem digit_beq_false {d : Char} (h : isDigitCh d = true) (c : Char)
    (hc : c.toNat < 48 ∨ 57 < c.toNat) : (d == c) = false := by
  apply beq_false_of_ne
  intro he
  subst he
  simp only [isDigitCh, Bool.and_eq_true, decide_eq_true_eq] at h
  omega

theorem parseNat_natDigits (n : Nat) (rest : List Char) (hrest : noDigitHead rest) :
    parseNat (natDigits n ++ rest) = some (n, rest) := by
  by_cases h0 : n = 0
  · subst h0
    have hz : natDigits 0 = ['0'] := by decide
    rw [hz]
    simp only [List.cons_append, List.nil_append, parseNat]
    rw [if_pos (by rfl)]
  · rcases natDigits_head n with ⟨d, ds, hnd, hdig, hzero⟩
    have hall : ∀ c ∈ d :: ds, isDigitCh c = true := by
      rw [← hnd]
      exact natDigits_all_digit n
    rw [hnd]
    simp only [List.cons_append, parseNat]
    have hd0 : (d == '0') = false := beq_false_of_ne (hzero (by omega))
    rw [if_neg (by simp [hd0]), if_pos (hall d (by simp))]
    rw [← List.cons_append, takeWhile_append_all _ _ _ hall hrest,
      dropWhile_append_all _ _ _ hall hrest, ← hnd, digitsVal_natDigits]

theorem parseNum_encInt (i : Int) (rest : List Char) (hrest : noDigitHead rest) :
    parseNum (encInt i ++ rest) = some (.num i, rest) := by
  unfold encInt
  by_cases h : i < 0
  · rw [if_pos h]
    simp only [List.cons_append, parseNum]
    rw [if_pos (by rfl), parseNat_natDigits _ _ hrest]
    show some (Json.num (-(i.natAbs : Int)), rest) = some (Json.num i, rest)
    have : -(i.natAbs : Int) = i := by omega
    rw [this]
  · rw [if_neg h]
    rcases natDigits_head i.toNat with ⟨d, ds, hnd, hdig, _⟩
    rw [hnd]
    simp only [List.cons_append, parseNum]
    have hdm : (d == '-') = false := digit_beq_false hdig '-' (by decide)
    rw [if_neg (by simp [hdm]), ← List.cons_append, ← hnd,
      parseNat_natDigits _ _ hrest]
    show some (Json.num (i.toNat : Int), rest) = some (Json.num i, rest)
    have : (i.toNat : Int) = i := by omega
    rw [this]

/-! ### Round-trip for string literals -/

theorem escChar_length_pos (c : Char) : 0 < (escChar c).length := by
  unfold escChar
  split_ifs <;> simp [toHex4]

theorem length_le_flatten_escChar (l : List Char) :
    l.length ≤ ((l.map escChar).flatten).length := by
  induction l with
  | nil => simp
  | cons c l ih =>
    have := escChar_length_pos c
    simp only [List.map_cons, List.flatten_cons, List.length_append, List.length_cons]
    omega

theorem escChar_parse (c : Char) (rest : List Char) :
    (∃ mid, escChar c ++ rest = '\\' :: mid ∧ parseEsc mid = some (c, rest)) ∨
    (escChar c = [c] ∧ (c == '"') = false ∧ (c == '\\') = false ∧ 0x20 ≤ c.toNat) := by
  have hval := char_valid_facts c
  unfold escChar
  by_cases h1 : c == '"'
  · rw [if_pos h1]
    cases beq_iff_eq.mp h1
    exact Or.inl ⟨'"' :: rest, rfl, rfl⟩
  by_cases h2 : c == '\\'
  · rw [if_neg h1, if_pos h2]
    cases beq_iff_eq.mp h2
    exact Or.inl ⟨'\\' :: rest, rfl, rfl⟩
  by_cases h3 : c == '\x08'
  · rw [if_neg h1, if_neg h2, if_pos h3]
    cases beq_iff_eq.mp h3
    exact Or.inl ⟨'b' :: rest, rfl, rfl⟩
  by_cases h4 : c == '\x0c'
  · rw [if_neg h1, if_neg h2, if_neg h3, if_pos h4]
    cases beq_iff_eq.mp h4
    exact Or.inl ⟨'f' :: rest, rfl, rfl⟩
  by_cases h5 : c == '\n'
  · rw [if_neg h1, if_neg h2, if_neg h3, if_neg h4, if_pos h5]
    cases beq_iff_eq.mp h5
    exact Or.inl ⟨'n' :: rest, rfl, rfl⟩
  by_cases h6 : c == '\r'
  · rw [if_neg h1, if_neg h2, if_neg h3, if_neg h4, if_neg h5, if_pos h6]
    cases beq_iff_eq.mp h6
    exact Or.inl ⟨'r' :: rest, rfl, rfl⟩
  by_cases h7 : c == '\t'
  · rw [if_neg h1, if_neg h2, if_neg h3, if_neg h4, if_neg h5, if_neg h6, if_pos h7]
    cases beq_iff_eq.mp h7
    exact Or.inl ⟨'t' :: rest, rfl, rfl⟩
  rw [if_neg h1, if_neg h2, if_neg h3, if_neg h4, if_neg h5, if_neg h6, if_neg h7]
  by_cases h8 : 0x20 ≤ c.toNat && c.toNat ≤ 0x7e
  · rw [if_pos h8]
    simp only [Bool.and_eq_true, decide_eq_true_eq] at h8
    exact Or.inr ⟨rfl, Bool.of_not_eq_true h1, Bool.of_not_eq_true h2, h8.1⟩
  rw [if_neg h8]
  by_cases h9 : c.toNat < 0x10000
  · rw [if_pos h9]
    refine Or.inl ⟨'u' :: (toHex4 c.toNat ++ rest), by simp, ?_⟩
    simp only [parseEsc]
    rw [if_neg (by decide), if_neg (by decide), if_neg (by decide), if_neg (by decide),
      if_neg (by decide), if_neg (by decide), if_neg (by decide), if_neg (by decide),
      if_pos (by decide)]
    simp only [parseHex4_toHex4 c.toNat h9 rest]
    rw [if_neg (by omega), if_neg (by omega)]
    rw [chr_toNat]
  · rw [if_neg h9]
    have ht : c.toNat < 0x110000 := hval.1
    have hq : (c.toNat - 0x10000) / 0x400 ≤ 0x3ff := by omega
    have hr : (c.toNat - 0x10000) % 0x400 ≤ 0x3ff := by omega
    refine Or.inl ⟨'u' :: (toHex4 (0xd800 + (c.toNat - 0x10000) / 0x400) ++
      ('\\' :: 'u' :: (toHex4 (0xdc00 + (c.toNat - 0x10000) % 0x400) ++ rest))), by simp, ?_⟩
    simp only [parseEsc]
    rw [if_neg (by decide), if_neg (by decide), if_neg (by decide), if_neg (by decide),
      if_neg (by decide), if_neg (by decide), if_neg (by decide), if_neg (by decide),
      if_pos (by decide)]
    simp only [parseHex4_toHex4 (0xd800 + (c.toNat - 0x10000) / 0x400) (by omega)]
    rw [if_pos (by omega), if_pos (by decide)]
    simp only [parseHex4_toHex4 (0xdc00 + (c.toNat - 0x10000) % 0x400) (by omega)]
    rw [if_pos (by omega)]
    have harith : 0x10000 + (0xd800 + (c.toNat - 0x10000) / 0x400 - 0xd800) * 0x400 +
        (0xdc00 + (c.toNat - 0x10000) % 0x400 - 0xdc00) = c.toNat := by omega
    rw [harith, chr_toNat]

theorem parseStrBody_enc :
    ∀ (l : List Char) (rest : List Char) (f : Nat), l.length < f →
      parseStrBody f ((l.map escChar).flatten ++ '"' :: rest) = some (l, rest) := by
  intro l
  induction l with
  | nil =>
    intro rest f hf
    cases f with
    | zero => omega
    | succ f =>
      simp only [List.map_nil, List.flatten_nil, List.nil_append, parseStrBody]
      rw [if_pos (by decide)]
  | cons c l ih =>
    intro rest f hf
    cases f with
    | zero => omega
    | succ f =>
      simp only [List.map_cons, List.flatten_cons, List.append_assoc]
      rcases escChar_parse c ((l.map escChar).flatten ++ '"' :: rest) with
        ⟨mid, hmid, hesc⟩ | ⟨hlit, hq, hb, hc⟩
      · rw [hmid]
        simp only [parseStrBody]
        rw [if_neg (by decide), if_pos (by decide)]
        simp only [hesc, ih rest f (by simpa using hf)]
      · rw [hlit]
        simp only [List.singleton_append, parseStrBody]
        rw [if_neg (by simp [hq]), if_neg (by simp [hb]), if_neg (by omega)]
        simp only [ih rest f (by simpa using hf)]

/-! ### Fuel accounting and head classification -/

theorem sizeVal_pos (j : Json) : 1 ≤ sizeVal j := by
  cases j <;> simp [sizeVal]

theorem sizeArr_pos (es : List Json) : 1 ≤ sizeArr es := by
  cases es <;> simp [sizeArr]

theorem sizeObj_pos (fs : List (String × Json)) : 1 ≤ sizeObj fs := by
  cases fs with
  | nil => simp [sizeObj]
  | cons kv fs => rcases kv with ⟨k, v⟩; simp [sizeObj]

theorem skipWs_not_ws {c : Char} (h : isWs c = false) (cs : List Char) :
    skipWs (c :: cs) = c :: cs := by
  simp [skipWs, List.dropWhile_cons, h]

theorem skipWs_space (cs : List Char) : skipWs (' ' :: cs) = skipWs cs := by
  simp [skipWs, List.dropWhile_cons, isWs]

theorem digit_not_ws {d : Char} (h : isDigitCh d = true) : isWs d = false := by
  simp only [isWs, Bool.or_eq_false_iff]
  refine ⟨⟨⟨?_, ?_⟩, ?_⟩, ?_⟩ <;> exact digit_beq_false h _ (by decide)

theorem encVal_head (j : Json) :
    ∃ c cs, encVal j = c :: cs ∧ isWs c = false ∧ (c == ']') = false := by
  cases j with
  | null => exact ⟨'n', _, rfl, by decide, by decide⟩
  | bool b => cases b with
    | true => exact ⟨'t', _, rfl, by decide, by decide⟩
    | false => exact ⟨'f', _, rfl, by decide, by decide⟩
  | num i =>
    show ∃ c cs, encInt i = c :: cs ∧ _
    unfold encInt
    by_cases h : i < 0
    · rw [if_pos h]
      exact ⟨'-', _, rfl, by decide, by decide⟩
    · rw [if_neg h]
      rcases natDigits_head i.toNat with ⟨d, ds, hnd, hdig, _⟩
      exact ⟨d, ds, hnd, digit_not_ws hdig, digit_beq_false hdig _ (by decide)⟩
  | str s => exact ⟨'"', _, rfl, by decide, by decide⟩
  | arr es => exact ⟨'[', _, rfl, by decide, by decide⟩
  | obj fs => exact ⟨'\x7b', _, rfl, by decide, by decide⟩

theorem skipWs_encVal (j : Json) (rest : List Char) :
    skipWs (encVal j ++ rest) = encVal j ++ rest := by
  rcases encVal_head j with ⟨c, cs, hc, hws, _⟩
  rw [hc, List.cons_append, skipWs_not_ws hws]

theorem noDigitHead_encArrTail (es : List Json) (rest : List Char) :
    noDigitHead (encArrTail es ++ rest) := by
  cases es with
  | nil => exact noDigitHead_cons (by decide) _
  | cons e es => exact noDigitHead_cons (by decide) _

theorem skipWs_encArrTail (es : List Json) (rest : List Char) :
    skipWs (encArrTail es ++ rest) = encArrTail es ++ rest := by
  cases es with
  | nil => exact skipWs_not_ws (by decide) _
  | cons e es => exact skipWs_not_ws (by decide) _

theorem noDigitHead_encObjTail (fs : List (String × Json)) (rest : List Char) :
    noDigitHead (encObjTail fs ++ rest) := by
  cases fs with
  | nil => exact noDigitHead_cons (by decide) _
  | cons kv fs => rcases kv with ⟨k, v⟩; exact noDigitHead_cons (by decide) _

theorem skipWs_encObjTail (fs : List (String × Json)) (rest : List Char) :
    skipWs (encObjTail fs ++ rest) = encObjTail fs ++ rest := by
  cases fs with
  | nil => exact skipWs_not_ws (by decide) _
  | cons kv fs => rcases kv with ⟨k, v⟩; exact skipWs_not_ws (by decide) _

theorem stringMk_data (s : String) : String.mk s.data = s := rfl

/-! ### The printer–parser round trip -/

theorem parse_enc_main :
    ∀ f : Nat,
      (∀ j rest, sizeVal j ≤ f → noDigitHead rest →
        parseVal f (encVal j ++ rest) = some (j, rest)) ∧
      (∀ es rest, sizeArr es ≤ f →
        parseArrBody f (encArrBody es ++ rest) = some (.arr es, rest)) ∧
      (∀ es rest, sizeArr es ≤ f →
        parseArrRest f (encArrTail es ++ rest) = some (es, rest)) ∧
      (∀ fs rest, sizeObj fs ≤ f →
        parseObjBody f (encObjBody fs ++ rest) = some (.obj fs, rest)) ∧
      (∀ fs rest, sizeObj fs ≤ f →
        parseObjRest f (encObjTail fs ++ rest) = some (fs, rest)) ∧
      (∀ (k : String) v rest, 1 + sizeVal v ≤ f → noDigitHead rest →
        parseMember f ((k.data.map escChar).flatten ++
            '"' :: ':' :: ' ' :: (encVal v ++ rest)) = some (k, v, rest)) := by
  intro f
  induction f using Nat.strong_induction_on with
  | _ f ih =>
    cases f with
    | zero =>
      refine ⟨?_, ?_, ?_, ?_, ?_, ?_⟩
      · intro j _ h _; have := sizeVal_pos j; omega
      · intro es _ h; have := sizeArr_pos es; omega
      · intro es _ h; have := sizeArr_pos es; omega
      · intro fs _ h; have := sizeObj_pos fs; omega
      · intro fs _ h; have := sizeObj_pos fs; omega
      · intro k v _ h _; omega
    | succ f =>
      have ihP := (ih f (by omega)).1
      have ihR := (ih f (by omega)).2.2.1
      have ihQ := (ih f (by omega)).2.1
      have ihS := (ih f (by omega)).2.2.2.1
      have ihT := (ih f (by omega)).2.2.2.2.1
      have ihM := (ih f (by omega)).2.2.2.2.2
      refine ⟨?_, ?_, ?_, ?_, ?_, ?_⟩
      · -- parseVal on an encoded value
        intro j rest hsz hrest
        cases j with
        | null =>
          show parseVal (f + 1) (('n' :: 'u' :: 'l' :: 'l' :: []) ++ rest) = _
          simp only [List.cons_append, List.nil_append, parseVal]
          rw [if_pos (by decide)]
          have he : expectChars ('u' :: 'l' :: 'l' :: []) ('u' :: 'l' :: 'l' :: rest) =
              some rest := rfl
          simp only [he]
        | bool b =>
          cases b with
          | true =>
            show parseVal (f + 1) (('t' :: 'r' :: 'u' :: 'e' :: []) ++ rest) = _
            simp only [List.cons_append, List.nil_append, parseVal]
            rw [if_neg (by decide), if_pos (by decide)]
            have he : expectChars ('r' :: 'u' :: 'e' :: []) ('r' :: 'u' :: 'e' :: rest) =
                some rest := rfl
            simp only [he]
          | false =>
            show parseVal (f + 1) (('f' :: 'a' :: 'l' :: 's' :: 'e' :: []) ++ rest) = _
            simp only [List.cons_append, List.nil_append, parseVal]
            rw [if_neg (by decide), if_neg (by decide), if_pos (by decide)]
            have he : expectChars ('a' :: 'l' :: 's' :: 'e' :: [])
                ('a' :: 'l' :: 's' :: 'e' :: rest) = some rest := rfl
            simp only [he]
        | num i =>
          have hnum := parseNum_encInt i rest hrest
          show parseVal (f + 1) (encInt i ++ rest) = some (.num i, rest)
          by_cases h : i < 0
          · rw [show encInt i = '-' :: natDigits i.natAbs from by simp [encInt, h]]
            simp only [List.cons_append, parseVal]
            rw [if_neg (by decide), if_neg (by decide), if_neg (by decide),
              if_neg (by decide), if_neg (by decide), if_neg (by decide)]
            rw [← List.cons_append,
              show '-' :: natDigits i.natAbs = encInt i from by simp [encInt, h]]
            exact hnum
          · rcases natDigits_head i.toNat with ⟨d, ds, hnd, hdig, _⟩
            have henc : encInt i = d :: ds := by rw [encInt, if_neg h, hnd]
            rw [henc]
            simp only [List.cons_append, parseVal]
            rw [if_neg (by simp [digit_beq_false hdig 'n' (by decide)]),
              if_neg (by simp [digit_beq_false hdig 't' (by decide)]),
              if_neg (by simp [digit_beq_false hdig 'f' (by decide)]),
              if_neg (by simp [digit_beq_false hdig '"' (by decide)]),
              if_neg (by simp [digit_beq_false hdig '[' (by decide)]),
              if_neg (by simp [digit_beq_false hdig '\x7b' (by decide)])]
            rw [← List.cons_append, ← henc]
            exact hnum
        | str s =>
          show parseVal (f + 1) (encStr s ++ rest) = _
          rw [show encStr s ++ rest =
              '"' :: ((s.data.map escChar).flatten ++ '"' :: rest) from by simp [encStr]]
          simp only [parseVal]
          rw [if_neg (by decide), if_neg (by decide), if_neg (by decide),
            if_pos (by decide)]
          have hlen : s.data.length <
              ((s.data.map escChar).flatten ++ '"' :: rest).length := by
            have := length_le_flatten_escChar s.data
            simp only [List.length_append, List.length_cons]
            omega
          simp only [parseStrBody_enc s.data rest _ hlen, stringMk_data]
        | arr es =>
          show parseVal (f + 1) (('[' :: encArrBody es) ++ rest) = _
          simp only [List.cons_append, parseVal]
          rw [if_neg (by decide), if_neg (by decide), if_neg (by decide),
            if_neg (by decide), if_pos (by decide)]
          rw [show skipWs (encArrBody es ++ rest) = encArrBody es ++ rest from by
            cases es with
            | nil => exact skipWs_not_ws (by decide) _
            | cons e es => simp only [encArrBody, List.append_assoc, skipWs_encVal]]
          exact ihQ es rest (by simp only [sizeVal] at hsz; omega)
        | obj fs =>
          show parseVal (f + 1) (('\x7b' :: encObjBody fs) ++ rest) = _
          simp only [List.cons_append, parseVal]
          rw [if_neg (by decide), if_neg (by decide), if_neg (by decide),
            if_neg (by decide), if_neg (by decide), if_pos (by decide)]
          rw [show skipWs (encObjBody fs ++ rest) = encObjBody fs ++ rest from by
            cases fs with
            | nil => exact skipWs_not_ws (by decide) _
            | cons kv fs =>
              rcases kv with ⟨k, v⟩
              have hform : encObjBody ((k, v) :: fs) ++ rest =
                  '"' :: ((k.data.map escChar).flatten ++
                    '"' :: ':' :: ' ' :: (encVal v ++ (encObjTail fs ++ rest))) := by
                simp [encObjBody, encStr]
              rw [hform]
              exact skipWs_not_ws (by decide) _]
          exact ihS fs rest (by simp only [sizeVal] at hsz; omega)
      · -- parseArrBody on an encoded element list
        intro es rest hsz
        cases es with
        | nil =>
          show parseArrBody (f + 1) ([']'] ++ rest) = _
          simp only [List.singleton_append, parseArrBody]
          rw [if_pos (by decide)]
        | cons e es =>
          show parseArrBody (f + 1) ((encVal e ++ encArrTail es) ++ rest) = _
          rcases encVal_head e with ⟨c, cs, hc, hws, hbr⟩
          rw [List.append_assoc, hc, List.cons_append]
          simp only [parseArrBody]
          rw [if_neg (by simp [hbr])]
          rw [← List.cons_append, ← hc]
          have hsz1 : sizeVal e ≤ f := by simp only [sizeArr] at hsz; omega
          have hsz2 : sizeArr es ≤ f := by simp only [sizeArr] at hsz; omega
          simp only [ihP e _ hsz1 (noDigitHead_encArrTail es rest),
            skipWs_encArrTail, ihR es rest hsz2]
      · -- parseArrRest on an encoded element tail
        intro es rest hsz
        cases es with
        | nil =>
          show parseArrRest (f + 1) ([']'] ++ rest) = _
          simp only [List.singleton_append, parseArrRest]
          rw [if_pos (by decide)]
        | cons e es =>
          show parseArrRest (f + 1)
            ((',' :: ' ' :: (encVal e ++ encArrTail es)) ++ rest) = _
          simp only [List.cons_append, parseArrRest]
          rw [if_neg (by decide), if_pos (by decide)]
          have heq : skipWs (' ' :: ((encVal e ++ encArrTail es) ++ rest)) =
              encVal e ++ (encArrTail es ++ rest) := by
            rw [skipWs_space, List.append_assoc]
            exact skipWs_encVal e _
          rw [heq]
          have hsz1 : sizeVal e ≤ f := by simp only [sizeArr] at hsz; omega
          have hsz2 : sizeArr es ≤ f := by simp only [sizeArr] at hsz; omega
          simp only [ihP e _ hsz1 (noDigitHead_encArrTail es rest),
            skipWs_encArrTail, ihR es rest hsz2]
      · -- parseObjBody on an encoded member list
        intro fs rest hsz
        cases fs with
        | nil =>
          show parseObjBody (f + 1) (['\x7d'] ++ rest) = _
          simp only [List.singleton_append, parseObjBody]
          rw [if_pos (by decide)]
        | cons kv fs =>
          rcases kv with ⟨k, v⟩
          show parseObjBody (f + 1)
            ((encStr k ++ ':' :: ' ' :: (encVal v ++ encObjTail fs)) ++ rest) = _
          rw [show (encStr k ++ ':' :: ' ' :: (encVal v ++ encObjTail fs)) ++ rest =
              '"' :: ((k.data.map escChar).flatten ++
                '"' :: ':' :: ' ' :: (encVal v ++ (encObjTail fs ++ rest))) from by
            simp [encStr]]
          simp only [parseObjBody]
          rw [if_neg (by decide), if_pos (by decide)]
          have hm : 1 + sizeVal v ≤ f := by simp only [sizeObj] at hsz; omega
          have ht : sizeObj fs ≤ f := by simp only [sizeObj] at hsz; omega
          simp only [ihM k v _ hm (noDigitHead_encObjTail fs rest),
            skipWs_encObjTail, ihT fs rest ht]
      · -- parseObjRest on an encoded member tail
        intro fs rest hsz
        cases fs with
        | nil =>
          show parseObjRest (f + 1) (['\x7d'] ++ rest) = _
          simp only [List.singleton_append, parseObjRest]
          rw [if_pos (by decide)]
        | cons kv fs =>
          rcases kv with ⟨k, v⟩
          show parseObjRest (f + 1)
            ((',' :: ' ' :: (encStr k ++ ':' :: ' ' :: (encVal v ++ encObjTail fs))) ++ rest) = _
          simp only [List.cons_append, parseObjRest]
          rw [if_neg (by decide), if_pos (by decide)]
          have heq : skipWs (' ' :: ((encStr k ++ ':' :: ' ' :: (encVal v ++ encObjTail fs)) ++ rest)) =
              '"' :: ((k.data.map escChar).flatten ++
                '"' :: ':' :: ' ' :: (encVal v ++ (encObjTail fs ++ rest))) := by
            rw [skipWs_space,
              show (encStr k ++ ':' :: ' ' :: (encVal v ++ encObjTail fs)) ++ rest =
                '"' :: ((k.data.map escChar).flatten ++
                  '"' :: ':' :: ' ' :: (encVal v ++ (encObjTail fs ++ rest))) from by
                simp [encStr]]
            exact skipWs_not_ws (by decide) _
          simp only [heq]
          rw [if_pos (by decide)]
          have hm : 1 + sizeVal v ≤ f := by simp only [sizeObj] at hsz; omega
          have ht : sizeObj fs ≤ f := by simp only [sizeObj] at hsz; omega
          simp only [ihM k v _ hm (noDigitHead_encObjTail fs rest),
            skipWs_encObjTail, ihT fs rest ht]
      · -- parseMember on an encoded member
        intro k v rest hm hrest
        simp only [parseMember]
        have hlen : k.data.length <
            ((k.data.map escChar).flatten ++
              '"' :: ':' :: ' ' :: (encVal v ++ rest)).length := by
          have := length_le_flatten_escChar k.data
          simp only [List.length_append, List.length_cons]
          omega
        simp only [parseStrBody_enc k.data (':' :: ' ' :: (encVal v ++ rest)) _ hlen]
        have h1 : skipWs (':' :: ' ' :: (encVal v ++ rest)) =
            ':' :: ' ' :: (encVal v ++ rest) := skipWs_not_ws (by decide) _
        simp only [h1]
        rw [if_pos (by decide)]
        have h2 : skipWs (' ' :: (encVal v ++ rest)) = encVal v ++ rest := by
          rw [skipWs_space]
          exact skipWs_encVal v rest
        rw [h2]
        simp only [ihP v rest (by omega) hrest, stringMk_data]

theorem encVal_len_pos (j : Json) : 1 ≤ (encVal j).length := by
  rcases encVal_head j with ⟨c, cs, hc, _, _⟩
  simp [hc]

theorem encArrTail_len_pos (es : List Json) : 1 ≤ (encArrTail es).length := by
  cases es <;> simp [encArrTail]

theorem encObjTail_len_pos (fs : List (String × Json)) : 1 ≤ (encObjTail fs).length := by
  cases fs with
  | nil => simp [encObjTail]
  | cons kv fs => rcases kv with ⟨k, v⟩; simp [encObjTail]

theorem size_le_encLen :
    ∀ n : Nat,
      (∀ j, sizeVal j ≤ n → sizeVal j ≤ (encVal j).length) ∧
      (∀ es, sizeArr es ≤ n →
        sizeArr es ≤ (encArrBody es).length ∧ sizeArr es ≤ (encArrTail es).length) ∧
      (∀ fs, sizeObj fs ≤ n →
        sizeObj fs ≤ (encObjBody fs).length ∧ sizeObj fs ≤ (encObjTail fs).length) := by
  intro n
  induction n using Nat.strong_induction_on with
  | _ n ih =>
    refine ⟨?_, ?_, ?_⟩
    · intro j hsz
      cases j with
      | null => simp [sizeVal, encVal]
      | bool b => cases b <;> simp [sizeVal, encVal]
      | num i => have := encVal_len_pos (.num i); simp only [sizeVal]; omega
      | str s => have := encVal_len_pos (.str s); simp only [sizeVal]; omega
      | arr es =>
        have hpos := sizeArr_pos es
        have hn : 1 ≤ n := by simp only [sizeVal] at hsz; omega
        have h := ((ih (n - 1) (by omega)).2.1 es
          (by simp only [sizeVal] at hsz; omega)).1
        simp only [sizeVal, encVal, List.length_cons]
        omega
      | obj fs =>
        have hpos := sizeObj_pos fs
        have hn : 1 ≤ n := by simp only [sizeVal] at hsz; omega
        have h := ((ih (n - 1) (by omega)).2.2 fs
          (by simp only [sizeVal] at hsz; omega)).1
        simp only [sizeVal, encVal, List.length_cons]
        omega
    · intro es hsz
      cases es with
      | nil => simp [sizeArr, encArrBody, encArrTail]
      | cons e es =>
        have hvpos := sizeVal_pos e
        have hapos := sizeArr_pos es
        have h1 : sizeVal e ≤ n - 1 ∧ sizeArr es ≤ n - 1 := by
          simp only [sizeArr] at hsz
          omega
        have he := (ih (n - 1) (by simp only [sizeArr] at hsz; omega)).1 e h1.1
        have hes := ((ih (n - 1) (by simp only [sizeArr] at hsz; omega)).2.1 es h1.2).2
        have hp1 := encVal_len_pos e
        have hp2 := encArrTail_len_pos es
        simp only [sizeArr, encArrBody, encArrTail, List.length_append, List.length_cons]
        omega
    · intro fs hsz
      cases fs with
      | nil => simp [sizeObj, encObjBody, encObjTail]
      | cons kv fs =>
        rcases kv with ⟨k, v⟩
        have hvpos := sizeVal_pos v
        have hopos := sizeObj_pos fs
        have h1 : sizeVal v ≤ n - 1 ∧ sizeObj fs ≤ n - 1 := by
          simp only [sizeObj] at hsz
          omega
        have hv := (ih (n - 1) (by simp only [sizeObj] at hsz; omega)).1 v h1.1
        have hfs := ((ih (n - 1) (by simp only [sizeObj] at hsz; omega)).2.2 fs h1.2).2
        have hp1 := encVal_len_pos v
        have hp2 := encObjTail_len_pos fs
        simp only [sizeObj, encObjBody, encObjTail, encStr, List.length_append,
          List.length_cons]
        omega

theorem sizeVal_le_encLen (j : Json) : sizeVal j ≤ (encVal j).length :=
  (size_le_encLen (sizeVal j)).1 j (Nat.le_refl _)

/-- Serializing any JSON value with the model of Python's `json.dumps` and
parsing it back with the model of `json.loads` returns the value unchanged. -/
theorem Json.loads_dumps (j : Json) : Json.loads (Json.dumps j) = some j := by
  have hskip : skipWs (String.mk (encVal j)).data = encVal j := by
    show skipWs (encVal j) = encVal j
    have h := skipWs_encVal j []
    simpa using h
  have hbound : sizeVal j ≤ (encVal j).length + 1 := by
    have := sizeVal_le_encLen j
    omega
  have hparse : parseVal ((encVal j).length + 1) (encVal j) = some (j, []) := by
    have h := (parse_enc_main ((encVal j).length + 1)).1 j [] hbound noDigitHead_nil
    simpa using h
  show Json.loads (String.mk (encVal j)) = some j
  unfold Json.loads
  rw [hskip]
  simp only [hparse]
  rfl

/-! ### Behaviour of the HTTP transport -/

theorem call_eq (c : HttpClient) (net : Net) (m : String) (ps : List String)
    (req : Json) (h : HttpClient.requestBody m ps = some req) :
    HttpClient.call c net m ps = postAndHandle net c.url req c.authValue := by
  unfold HttpClient.call
  simp only [h]

theorem handleResponse_ok (resp : HttpResponse) (fields : List (String × Json))
    (R : Json) (hstatus : ¬ raiseForStatus resp.status)
    (hbody : Json.loads resp.body = some (.obj fields))
    (hres : getField fields "result" = some R) (hR : R ≠ .null) :
    handleResponse resp = .ok (Json.dumps R) := by
  unfold handleResponse
  rw [if_neg hstatus]
  cases R with
  | null => exact absurd rfl hR
  | bool b => simp only [hbody, hres]
  | num n => simp only [hbody, hres]
  | str s => simp only [hbody, hres]
  | arr es => simp only [hbody, hres]
  | obj fs => simp only [hbody, hres]

theorem handleResponse_rpcErr (resp : HttpResponse) (fields : List (String × Json))
    (hstatus : ¬ raiseForStatus resp.status)
    (hbody : Json.loads resp.body = some (.obj fields))
    (hres : getField fields "result" = none ∨ getField fields "result" = some .null) :
    handleResponse resp = .error (.rpcError (.obj fields)) := by
  unfold handleResponse
  rw [if_neg hstatus]
  rcases hres with h | h <;> simp only [hbody, h]

theorem handleResponse_notObj (resp : HttpResponse) (j : Json)
    (hstatus : ¬ raiseForStatus resp.status)
    (hbody : Json.loads resp.body = some j)
    (hobj : ∀ fields, j ≠ .obj fields) :
    handleResponse resp = .error .assertionFailed := by
  unfold handleResponse
  rw [if_neg hstatus]
  cases j with
  | obj fields => exact absurd rfl (hobj fields)
  | null => simp only [hbody]
  | bool b => simp only [hbody]
  | num n => simp only [hbody]
  | str s => simp only [hbody]
  | arr es => simp only [hbody]

/-! ### The claims -/

/-- Claim C1: for every HTTP-level-successful exchange whose body decodes to
an object, `HttpClient.call` fails with an RPC application error carrying the
entire decoded response object when the `result` field is absent or null, and
otherwise (any non-null `result`, falsy values included) returns the
re-serialization of the `result` field and does not fail. -/
theorem claim_C1 (c : HttpClient) (net : Net) (m : String) (ps : List String)
    (req : Json) (resp : HttpResponse) (fields : List (String × Json))
    (hreq : HttpClient.requestBody m ps = some req)
    (hnet : net c.url req c.authValue = some resp)
    (hstatus : ¬ raiseForStatus resp.status)
    (hbody : Json.loads resp.body = some (.obj fields)) :
    ((getField fields "result" = none ∨ getField fields "result" = some .null) →
      HttpClient.call c net m ps = .error (.rpcError (.obj fields))) ∧
    (∀ R, getField fields "result" = some R → R ≠ .null →
      HttpClient.call c net m ps = .ok (Json.dumps R)) := by
  have hcall : HttpClient.call c net m ps = handleResponse resp := by
    rw [call_eq c net m ps req hreq]
    unfold postAndHandle
    simp only [hnet]
  constructor
  · intro hres
    rw [hcall]
    exact handleResponse_rpcErr resp fields hstatus hbody hres
  · intro R hres hR
    rw [hcall]
    exact handleResponse_ok resp fields R hstatus hbody hres hR

/-- Witness for C1: a concrete exchange with body `{"result": 3}` returns the
re-serialized result. -/
theorem claim_C1_witness :
    HttpClient.call ⟨"http://x", none⟩ netC1 "Filecoin.ChainHead" [] =
      .ok (Json.dumps (Json.num 3)) :=
  (claim_C1 ⟨"http://x", none⟩ netC1 "Filecoin.ChainHead" []
    (Json.obj [("jsonrpc", Json.str "2.0"), ("id", Json.null),
      ("method", Json.str "Filecoin.ChainHead"), ("params", Json.arr [])])
    ⟨200, Json.dumps (Json.obj [("result", Json.num 3)])⟩
    [("result", Json.num 3)] rfl rfl (by decide) (Json.loads_dumps _)).2
    (Json.num 3) rfl (fun h => Json.noConfusion h)

/-- Claim C2: the outbound request body is exactly the JSON-RPC 2.0 envelope
with `jsonrpc` the string `"2.0"`, `id` null, the method name, and the JSON
values parsed from the serialized parameters, in order. -/
theorem claim_C2 (m : String) (ps : List String) (vs : List Json)
    (h : ps.mapM Json.loads = some vs) :
    HttpClient.requestBody m ps =
      some (Json.obj [("jsonrpc", Json.str "2.0"), ("id", Json.null),
        ("method", Json.str m), ("params", Json.arr vs)]) ∧
    ∀ (c : HttpClient) (net : Net),
      HttpClient.call c net m ps =
        postAndHandle net c.url
          (Json.obj [("jsonrpc", Json.str "2.0"), ("id", Json.null),
            ("method", Json.str m), ("params", Json.arr vs)]) c.authValue := by
  have h1 : HttpClient.requestBody m ps =
      some (Json.obj [("jsonrpc", Json.str "2.0"), ("id", Json.null),
        ("method", Json.str m), ("params", Json.arr vs)]) := by
    unfold HttpClient.requestBody
    rw [h]
    rfl
  exact ⟨h1, fun c net => call_eq c net m ps _ h1⟩

/-- Witness for C2 at a concrete one-parameter invocation. -/
theorem claim_C2_witness :
    HttpClient.requestBody "Filecoin.BeaconGetEntry" ["3"] =
      some (Json.obj [("jsonrpc", Json.str "2.0"), ("id", Json.null),
        ("method", Json.str "Filecoin.BeaconGetEntry"),
        ("params", Json.arr [Json.num 3])]) :=
  (claim_C2 "Filecoin.BeaconGetEntry" ["3"] [Json.num 3] rfl).1

/-- Claim C7: with a configured token the outbound request carries the
bearer-style value `"Bearer " ++ token` as its authorization credential; with
no token it carries none. -/
theorem claim_C7 (u : String) (tok : Option String) (net : Net) (m : String)
    (ps : List String) (req : Json)
    (h : HttpClient.requestBody m ps = some req) :
    (HttpClient.mk u tok).authValue = tok.map (fun t => "Bearer " ++ t) ∧
    (∀ t, tok = some t → HttpClient.call ⟨u, tok⟩ net m ps =
        postAndHandle net u req (some ("Bearer " ++ t))) ∧
    (tok = none → HttpClient.call ⟨u, tok⟩ net m ps =
        postAndHandle net u req none) := by
  refine ⟨rfl, ?_, ?_⟩
  · intro t ht
    subst ht
    rw [call_eq ⟨u, some t⟩ net m ps req h]
    rfl
  · intro ht
    subst ht
    rw [call_eq ⟨u, none⟩ net m ps req h]
    rfl

/-- Witness for C7: a concrete authenticated invocation passes exactly the
bearer value derived from the configured token. -/
theorem claim_C7_witness :
    HttpClient.call ⟨"http://x", some "abc"⟩ netC7 "Filecoin.ChainHead" [] =
      postAndHandle netC7 "http://x"
        (Json.obj [("jsonrpc", Json.str "2.0"), ("id", Json.null),
          ("method", Json.str "Filecoin.ChainHead"), ("params", Json.arr [])])
        (some ("Bearer " ++ "abc")) :=
  (claim_C7 "http://x" (some "abc") netC7 "Filecoin.ChainHead" []
    (Json.obj [("jsonrpc", Json.str "2.0"), ("id", Json.null),
      ("method", Json.str "Filecoin.ChainHead"), ("params", Json.arr [])])
    rfl).2.1 "abc" rfl

/-- Claim C9 (implicit): an HTTP-successful response whose body is valid JSON
but not an object makes the call fail through the `dict` assertion; it is
never treated as success. -/
theorem claim_C9 (c : HttpClient) (net : Net) (m : String) (ps : List String)
    (req : Json) (resp : HttpResponse) (j : Json)
    (hreq : HttpClient.requestBody m ps = some req)
    (hnet : net c.url req c.authValue = some resp)
    (hstatus : ¬ raiseForStatus resp.status)
    (hbody : Json.loads resp.body = some j)
    (hobj : ∀ fields, j ≠ Json.obj fields) :
    HttpClient.call c net m ps = .error .assertionFailed := by
  rw [call_eq c net m ps req hreq]
  unfold postAndHandle
  simp only [hnet]
  exact handleResponse_notObj resp j hstatus hbody hobj

/-- Witness for C9: the body `7` (a JSON number, not an object) fails the
assertion. -/
theorem claim_C9_witness :
    HttpClient.call ⟨"http://x", none⟩ netC9 "Filecoin.ChainHead" [] =
      .error .assertionFailed :=
  claim_C9 ⟨"http://x", none⟩ netC9 "Filecoin.ChainHead" []
    (Json.obj [("jsonrpc", Json.str "2.0"), ("id", Json.null),
      ("method", Json.str "Filecoin.ChainHead"), ("params", Json.arr [])])
    ⟨200, Json.dumps (Json.num 7)⟩ (Json.num 7) rfl rfl (by decide)
    (Json.loads_dumps _) (fun _ h => Json.noConfusion h)

/-- Claim C10 (implicit): `HttpClient.__repr__` never depends on the value of
the configured credential — any two clients with the same url and tokens of
the same presence have equal printable representations. -/
theorem claim_C10 :
    (∀ (url t1 t2 : String),
      HttpClient.repr ⟨url, some t1⟩ = HttpClient.repr ⟨url, some t2⟩) ∧
    (∀ (url : String) (tok1 tok2 : Option String), tok1.isSome = tok2.isSome →
      HttpClient.repr ⟨url, tok1⟩ = HttpClient.repr ⟨url, tok2⟩) := by
  have key : ∀ (url : String) (tok1 tok2 : Option String), tok1.isSome = tok2.isSome →
      HttpClient.repr ⟨url, tok1⟩ = HttpClient.repr ⟨url, tok2⟩ := by
    intro url tok1 tok2 h
    simp only [HttpClient.repr]
    rw [h]
  exact ⟨fun url t1 t2 => key url (some t1) (some t2) rfl, key⟩

/-- Witness for C10: two different concrete tokens give the same repr. -/
theorem claim_C10_witness :
    HttpClient.repr ⟨"http://x", some "secret-a"⟩ =
      HttpClient.repr ⟨"http://x", some "other-b"⟩ :=
  claim_C10.2 "http://x" (some "secret-a") (some "other-b") rfl

/-- Counterexample to claim C4 as stated: a 304 response is not a 2xx status,
yet `raise_for_status` does not raise for it, so the call parses the body as
a JSON-RPC envelope and returns the result instead of failing with a
transport error. -/
theorem claim_C4_counterexample :
    HttpClient.call ⟨"http://x", none⟩ netC4 "Filecoin.ChainHead" [] =
      .ok (Json.dumps (Json.num 5)) := by
  rw [call_eq ⟨"http://x", none⟩ netC4 "Filecoin.ChainHead" []
    (Json.obj [("jsonrpc", Json.str "2.0"), ("id", Json.null),
      ("method", Json.str "Filecoin.ChainHead"), ("params", Json.arr [])]) rfl]
  show handleResponse ⟨304, Json.dumps (Json.obj [("result", Json.num 5)])⟩ = _
  exact handleResponse_ok _ [("result", Json.num 5)] (Json.num 5) (by decide)
    (Json.loads_dumps _) rfl (fun h => Json.noConfusion h)

/-- Claim C4 (amended): a connection failure, or a 4xx or 5xx status — the
statuses `requests.Response.raise_for_status` raises for — produces a
transport error whose outcome is independent of the response body (the body
is never parsed); a non-2xx status outside 400–599 is not a transport
error. -/
theorem claim_C4 (c : HttpClient) (net : Net) (m : String) (ps : List String)
    (req : Json) (hreq : HttpClient.requestBody m ps = some req) :
    (net c.url req c.authValue = none →
      HttpClient.call c net m ps = .error .connectionFailed) ∧
    (∀ resp, net c.url req c.authValue = some resp →
      400 ≤ resp.status → resp.status < 600 →
      HttpClient.call c net m ps = .error (.httpError resp.status)) := by
  constructor
  · intro h
    rw [call_eq c net m ps req hreq]
    unfold postAndHandle
    simp only [h]
  · intro resp h h4 h6
    rw [call_eq c net m ps req hreq]
    unfold postAndHandle
    simp only [h]
    unfold handleResponse
    rw [if_pos ⟨h4, h6⟩]

/-- Witness for the amended C4: an HTTP 500 with a non-JSON body is a
transport error; the body never reaches the decoder. -/
theorem claim_C4_witness :
    HttpClient.call ⟨"http://x", none⟩ netC4err "Filecoin.ChainHead" [] =
      .error (.httpError 500) :=
  (claim_C4 ⟨"http://x", none⟩ netC4err "Filecoin.ChainHead" []
    (Json.obj [("jsonrpc", Json.str "2.0"), ("id", Json.null),
      ("method", Json.str "Filecoin.ChainHead"), ("params", Json.arr [])])
    rfl).2 ⟨500, "internal error"⟩ rfl (by decide) (by decide)

/-- Counterexample to claim C6 as stated: on the spec's own example response
`{"error":{"code":-32601,"message":"method not found"}}` the raised error's
payload is the entire response object, which is not equal to the `error`
field `E` alone. -/
theorem claim_C6_counterexample :
    HttpClient.call ⟨"http://x", none⟩ netC6 "Filecoin.ChainHead" [] =
      .error (.rpcError (Json.obj [("error", errC6)])) ∧
    Json.obj [("error", errC6)] ≠ errC6 := by
  constructor
  · rw [call_eq ⟨"http://x", none⟩ netC6 "Filecoin.ChainHead" []
      (Json.obj [("jsonrpc", Json.str "2.0"), ("id", Json.null),
        ("method", Json.str "Filecoin.ChainHead"), ("params", Json.arr [])]) rfl]
    show handleResponse ⟨200, Json.dumps (Json.obj [("error", errC6)])⟩ = _
    refine handleResponse_rpcErr _ [("error", errC6)] (by decide)
      (Json.loads_dumps _) (Or.inl ?_)
    show (if ("error" == "result") = true then some errC6 else none) = none
    rw [if_neg (by decide)]
  · intro h
    rw [show errC6 = Json.obj [("code", Json.num (-32601)),
      ("message", Json.str "method not found")] from rfl] at h
    injection h with h1
    injection h1 with h2 h3
    injection h2 with h4 h5
    exact absurd h4 (by decide)

/-- Claim C6 (amended): for a response `{"error": E}` with no `result`
member, the call fails with an application error whose payload is the entire
response object `{"error": E}`; `E` itself is recoverable as that payload's
`error` field. -/
theorem claim_C6 (c : HttpClient) (net : Net) (m : String) (ps : List String)
    (req : Json) (resp : HttpResponse) (E : Json)
    (hreq : HttpClient.requestBody m ps = some req)
    (hnet : net c.url req c.authValue = some resp)
    (hstatus : ¬ raiseForStatus resp.status)
    (hbody : Json.loads resp.body = some (Json.obj [("error", E)])) :
    HttpClient.call c net m ps = .error (.rpcError (Json.obj [("error", E)])) ∧
    getField [("error", E)] "error" = some E := by
  constructor
  · rw [call_eq c net m ps req hreq]
    unfold postAndHandle
    simp only [hnet]
    refine handleResponse_rpcErr resp [("error", E)] hstatus hbody (Or.inl ?_)
    show (if ("error" == "result") = true then some E else none) = none
    rw [if_neg (by decide)]
  · show (if ("error" == "error") = true then some E else none) = some E
    rw [if_pos (by decide)]

/-- Witness for the amended C6 at the spec's example payload. -/
theorem claim_C6_witness :
    HttpClient.call ⟨"http://y", none⟩ netC6 "Filecoin.WalletBalance"
        ["\"f01234\""] =
      .error (.rpcError (Json.obj [("error", errC6)])) :=
  (claim_C6 ⟨"http://y", none⟩ netC6 "Filecoin.WalletBalance" ["\"f01234\""]
    (Json.obj [("jsonrpc", Json.str "2.0"), ("id", Json.null),
      ("method", Json.str "Filecoin.WalletBalance"),
      ("params", Json.arr [Json.str "f01234"])])
    ⟨200, Json.dumps (Json.obj [("error", errC6)])⟩ errC6 rfl rfl (by decide)
    (Json.loads_dumps _)).1

/-- Claim C8 evaluated at its failing inputs: `ChainSetHead` is annotated to
return nothing, but over the HTTP transport a response `{"result": true}`
makes it return the non-`None` value `true` to the caller, and the conforming
void response `{"result": null}` makes the transport raise instead of
completing, so an error-free completion never hands the caller `None`. -/
theorem claim_C8 :
    Client.ChainSetHead (HttpClient.call ⟨"http://x", none⟩ netC8true) tskC8 =
      .ok (Json.bool true) ∧
    Json.bool true ≠ Json.null ∧
    Client.ChainSetHead (HttpClient.call ⟨"http://x", none⟩ netC8null) tskC8 =
      .error (.rpcError (Json.obj [("result", Json.null)])) := by
  refine ⟨?_, fun h => Json.noConfusion h, ?_⟩
  · have hcall : HttpClient.call ⟨"http://x", none⟩ netC8true "Filecoin.ChainSetHead"
        [tskC8.model_dump_json] = .ok (Json.dumps (Json.bool true)) := by
      rw [call_eq ⟨"http://x", none⟩ netC8true "Filecoin.ChainSetHead"
        [tskC8.model_dump_json]
        (Json.obj [("jsonrpc", Json.str "2.0"), ("id", Json.null),
          ("method", Json.str "Filecoin.ChainSetHead"),
          ("params", Json.arr [Json.arr []])]) rfl]
      show handleResponse ⟨200, Json.dumps (Json.obj [("result", Json.bool true)])⟩ = _
      exact handleResponse_ok _ [("result", Json.bool true)] (Json.bool true)
        (by decide) (Json.loads_dumps _) rfl (fun h => Json.noConfusion h)
    unfold Client.ChainSetHead
    rw [hcall]
    show (match Json.loads (Json.dumps (Json.bool true)) with
      | some j => Except.ok j
      | none => Except.error CallError.resultDecode) = Except.ok (Json.bool true)
    rw [Json.loads_dumps]
  · have hcall : HttpClient.call ⟨"http://x", none⟩ netC8null "Filecoin.ChainSetHead"
        [tskC8.model_dump_json] =
          .error (.rpcError (Json.obj [("result", Json.null)])) := by
      rw [call_eq ⟨"http://x", none⟩ netC8null "Filecoin.ChainSetHead"
        [tskC8.model_dump_json]
        (Json.obj [("jsonrpc", Json.str "2.0"), ("id", Json.null),
          ("method", Json.str "Filecoin.ChainSetHead"),
          ("params", Json.arr [Json.arr []])]) rfl]
      show handleResponse ⟨200, Json.dumps (Json.obj [("result", Json.null)])⟩ = _
      refine handleResponse_rpcErr _ [("result", Json.null)] (by decide)
        (Json.loads_dumps _) (Or.inr ?_)
      show (if ("result" == "result") = true then some Json.null else none) =
        some Json.null
      rw [if_pos (by decide)]
    unfold Client.ChainSetHead
    rw [hcall]
    rfl

/-- Claim C3: for the cataloged methods modelled here, the serialized
parameter list a method hands the transport, once re-parsed into the request
envelope, yields a `params` list of exactly the declared arity with the
arguments' canonical JSON forms in declared order. -/
theorem claim_C3 :
    (∀ (height : Int) (tsk : ForestFilecoinLotusJsonCidCidLotusJsonGeneric64),
      HttpClient.requestBody "Filecoin.ChainGetTipSetByHeight"
          [Json.dumps (Json.num height), tsk.model_dump_json] =
        some (Json.obj [("jsonrpc", Json.str "2.0"), ("id", Json.null),
          ("method", Json.str "Filecoin.ChainGetTipSetByHeight"),
          ("params", Json.arr [Json.num height, tsk.json])])) ∧
    (HttpClient.requestBody "Filecoin.ChainHead" [] =
      some (Json.obj [("jsonrpc", Json.str "2.0"), ("id", Json.null),
        ("method", Json.str "Filecoin.ChainHead"), ("params", Json.arr [])])) ∧
    (∀ address : StringLotusJson,
      HttpClient.requestBody "Filecoin.WalletBalance" [address.model_dump_json] =
        some (Json.obj [("jsonrpc", Json.str "2.0"), ("id", Json.null),
          ("method", Json.str "Filecoin.WalletBalance"),
          ("params", Json.arr [Json.str address.val])])) := by
  refine ⟨?_, rfl, ?_⟩
  · intro height tsk
    unfold HttpClient.requestBody
      ForestFilecoinLotusJsonCidCidLotusJsonGeneric64.model_dump_json
    rw [show List.mapM Json.loads [Json.dumps (Json.num height), Json.dumps tsk.json] =
        some [Json.num height, tsk.json] from by
      simp [List.mapM, List.mapM.loop, Json.loads_dumps]]
    rfl
  · intro address
    unfold HttpClient.requestBody StringLotusJson.model_dump_json
    rw [show List.mapM Json.loads [Json.dumps (Json.str address.val)] =
        some [Json.str address.val] from by
      simp [List.mapM, List.mapM.loop, Json.loads_dumps]]
    rfl

/-- Claim C5: for a successful response `{"result": R}` with non-null `R`,
the transport returns the serialization of `R`; the typed client method
(`ChainHead`) returns `R` reinterpreted under its declared result shape; and
re-encoding that typed value yields `R` again. -/
theorem claim_C5 (c : HttpClient) (net : Net) (resp : HttpResponse) (R : Json)
    (t : TipsetLotusJson)
    (hnet : net c.url (Json.obj [("jsonrpc", Json.str "2.0"), ("id", Json.null),
        ("method", Json.str "Filecoin.ChainHead"), ("params", Json.arr [])])
      c.authValue = some resp)
    (hstatus : ¬ raiseForStatus resp.status)
    (hbody : Json.loads resp.body = some (Json.obj [("result", R)]))
    (hR : R ≠ Json.null)
    (hvalid : TipsetLotusJson.validate R = some t) :
    HttpClient.call c net "Filecoin.ChainHead" [] = .ok (Json.dumps R) ∧
    Client.ChainHead (HttpClient.call c net) = .ok t ∧
    TipsetLotusJson.toJson t = R := by
  have hres : getField [("result", R)] "result" = some R := by
    show (if ("result" == "result") = true then some R else none) = some R
    rw [if_pos (by decide)]
  have hcall : HttpClient.call c net "Filecoin.ChainHead" [] = .ok (Json.dumps R) := by
    rw [call_eq c net "Filecoin.ChainHead" []
      (Json.obj [("jsonrpc", Json.str "2.0"), ("id", Json.null),
        ("method", Json.str "Filecoin.ChainHead"), ("params", Json.arr [])]) rfl]
    unfold postAndHandle
    simp only [hnet]
    exact handleResponse_ok resp [("result", R)] R hstatus hbody hres hR
  have hmv : TipsetLotusJson.model_validate_json (Json.dumps R) = some t := by
    unfold TipsetLotusJson.model_validate_json
    rw [Json.loads_dumps R]
    exact hvalid
  refine ⟨hcall, ?_, ?_⟩
  · unfold Client.ChainHead
    rw [hcall]
    show (match TipsetLotusJson.model_validate_json (Json.dumps R) with
      | some t => Except.ok t
      | none => Except.error CallError.validationError) = Except.ok t
    simp only [hmv]
  · unfold TipsetLotusJson.validate at hvalid
    split at hvalid
    · rename_i cs h
      cases hvalid
      rfl
    · exact Option.noConfusion hvalid

/-- Witness for C5 at the spec's example: `{"result": {"Cids": [], "Height":
1000}}` decodes to the typed tipset exposing height 1000. -/
theorem claim_C5_witness :
    Client.ChainHead (HttpClient.call ⟨"http://x", none⟩ netC5) =
      .ok ⟨[], 1000⟩ :=
  (claim_C5 ⟨"http://x", none⟩ netC5
    ⟨200, Json.dumps (Json.obj [("result", tipsetC5)])⟩ tipsetC5 ⟨[], 1000⟩
    rfl (by decide) (Json.loads_dumps _) (fun h => Json.noConfusion h) rfl).2.1
